import Mathlib

/-!
Verification of the payment-processor core (src/clients.rs, src/storage.rs,
src/events.rs) against its specification.

Amounts are `f32` in the source; we embed them as exact rationals `ℚ`,
following the specification's note that numeric precision beyond a single
floating-point unit is out of scope and that a fixed-point/decimal type is
an acceptable substitute. Client ids (`u16`) and transaction ids (`u32`)
are embedded as `ℕ`; no arithmetic is performed on them, only equality
tests, so wrap-around is irrelevant.

Stateful Rust code (`&mut self` methods) is embedded by explicit state
passing: a method becomes a function from the pre-state to
(error-or-unit, post-state), mirroring the source statement by statement,
so that "what has been mutated when a failure is returned" is faithfully
represented.
-/

namespace Payments

/-- `TxState` from src/storage.rs: the amount and current state of a
stored transaction. -/
inductive TxState where
  | deposit (amount : ℚ)
  | dispute (amount : ℚ)
  | withdrawal
deriving DecidableEq, Repr

/-- The `MemoryStore` from src/storage.rs: a `HashMap<u32, (u16, TxState)>`
mapping a transaction id to its owning client id and state, embedded as an
association list keyed by transaction id. -/
abbrev MemoryStore := List (ℕ × ℕ × TxState)

/-- `HashMap::get` on the embedded map: the value at the first entry whose
key is `txId`, if any. -/
def mapGet (s : MemoryStore) (txId : ℕ) : Option (ℕ × TxState) :=
  match s with
  | [] => none
  | (t, v) :: rest => if t = txId then some v else mapGet rest txId

/-- `HashMap::insert` on the embedded map: replace the entry at the key if
present, otherwise add one. -/
def mapInsert (s : MemoryStore) (txId : ℕ) (v : ℕ × TxState) : MemoryStore :=
  match s with
  | [] => [(txId, v)]
  | (t, w) :: rest =>
      if t = txId then (txId, v) :: rest else (t, w) :: mapInsert rest txId v

/-- The error values produced by the ledger core. Each constructor stands
for one `bail!`/`anyhow!` site in src/clients.rs or src/storage.rs:

* `accountFrozen` — "account is frozen"
* `duplicateTransaction` — "cannot overwrite existing transaction"
* `insufficientFunds` — "insufficient funds for withdrawal"
* `transactionNotFound` — "transaction does not exist"
* `notEnoughFundsToDispute` — "not enough funds to dispute transaction"
* `transactionAlreadyDisputed` — "transaction already disputed"
* `cannotDisputeWithdrawal` — "cannot dispute a withdrawal"
* `transactionNotDisputed` — "transaction is not disputed"
* `ownershipConflict` — "transaction exists for different client" (store)
-/
inductive UpdateError where
  | accountFrozen
  | duplicateTransaction
  | insufficientFunds
  | transactionNotFound
  | notEnoughFundsToDispute
  | transactionAlreadyDisputed
  | cannotDisputeWithdrawal
  | transactionNotDisputed
  | ownershipConflict
deriving DecidableEq, Repr

/-- `TxStore::get` for `Arc<Mutex<MemoryStore>>` (src/storage.rs lines
57-65): look the transaction id up; if the recorded owner differs from
`clientId`, behave as absent. -/
def storeGet (s : MemoryStore) (clientId : ℕ) (txId : ℕ) : Option TxState :=
  match mapGet s txId with
  | none => none
  | some (cid, tx) => if cid ≠ clientId then none else some tx

/-- `TxStore::upsert` for `Arc<Mutex<MemoryStore>>` (src/storage.rs lines
67-83): if an entry exists under a different owner, fail without mutating;
otherwise insert/overwrite. -/
def storeUpsert (s : MemoryStore) (clientId : ℕ) (txId : ℕ) (tx : TxState) :
    Except UpdateError MemoryStore :=
  match mapGet s txId with
  | some (cid, _) =>
      if cid ≠ clientId then .error .ownershipConflict
      else .ok (mapInsert s txId (clientId, tx))
  | none => .ok (mapInsert s txId (clientId, tx))

/-- `Record` from src/events.rs: a raw, unvalidated payment record. -/
structure Record where
  type : String
  client : ℕ
  tx : ℕ
  amount : Option ℚ
deriving DecidableEq, Repr

/-- `EventType` from src/events.rs. -/
inductive EventType where
  | deposit (amount : ℚ)
  | withdrawal (amount : ℚ)
  | dispute
  | resolve
  | chargeback
deriving DecidableEq, Repr

/-- `Event` from src/events.rs: a validated payment event. -/
structure Event where
  client : ℕ
  tx : ℕ
  kind : EventType
deriving DecidableEq, Repr

/-- The two validation failures of `Event::try_from` (src/events.rs lines
111-132): `unknownEventType` is "invalid transaction type ...",
`missingAmount` is "deposit requires an amount" / "withdrawal requires an
amount". -/
inductive ValidationError where
  | unknownEventType
  | missingAmount
deriving DecidableEq, Repr

/-- `Event::try_from` (src/events.rs lines 111-132): match on the record's
type string (exact, case-sensitive); deposit and withdrawal require an
amount; dispute, resolve and chargeback take none and ignore any supplied
amount. -/
def tryFrom (record : Record) : Except ValidationError Event :=
  if record.type = "deposit" then
    match record.amount with
    | some a => .ok ⟨record.client, record.tx, .deposit a⟩
    | none => .error .missingAmount
  else if record.type = "withdrawal" then
    match record.amount with
    | some a => .ok ⟨record.client, record.tx, .withdrawal a⟩
    | none => .error .missingAmount
  else if record.type = "dispute" then .ok ⟨record.client, record.tx, .dispute⟩
  else if record.type = "resolve" then .ok ⟨record.client, record.tx, .resolve⟩
  else if record.type = "chargeback" then
    .ok ⟨record.client, record.tx, .chargeback⟩
  else .error .unknownEventType

/-- `Client` from src/clients.rs: account balances, the frozen flag, and
(implicitly, passed alongside) a handle on the shared store. -/
structure Client where
  id : ℕ
  available : ℚ
  total : ℚ
  locked : Bool
deriving DecidableEq, Repr

/-- `Client::new` (src/clients.rs lines 44-50): fresh client with zero
balances and `locked = false` (the `Default` derive). -/
def Client.new (id : ℕ) : Client := ⟨id, 0, 0, false⟩

/-- `Client::held` (src/clients.rs lines 63-65): derived held funds. -/
def Client.held (c : Client) : ℚ := c.total - c.available

/-- `Client::update` (src/clients.rs lines 110-193), embedded with explicit
state passing over `(Client, MemoryStore)`. The result is
`(error?, post-client, post-store)`; a `bail!` returns the state as mutated
so far (the source performs all mutations after all fallible steps, which
is what claim C3 checks). The event's `client` field is not consulted —
the source uses `self.id` throughout. -/
def Client.update (c : Client) (s : MemoryStore) (e : Event) :
    Option UpdateError × Client × MemoryStore :=
  if c.locked then (some .accountFrozen, c, s)
  else
    match e.kind with
    | .deposit amount =>
        if (storeGet s c.id e.tx).isSome then (some .duplicateTransaction, c, s)
        else
          match storeUpsert s c.id e.tx (.deposit amount) with
          | .error err => (some err, c, s)
          | .ok s' =>
              (none,
                { c with available := c.available + amount,
                         total := c.total + amount }, s')
    | .withdrawal amount =>
        if c.available < amount then (some .insufficientFunds, c, s)
        else if (storeGet s c.id e.tx).isSome then
          (some .duplicateTransaction, c, s)
        else
          match storeUpsert s c.id e.tx .withdrawal with
          | .error err => (some err, c, s)
          | .ok s' =>
              (none,
                { c with available := c.available - amount,
                         total := c.total - amount }, s')
    | .dispute =>
        match storeGet s c.id e.tx with
        | none => (some .transactionNotFound, c, s)
        | some (.deposit amount) =>
            if amount > c.available then (some .notEnoughFundsToDispute, c, s)
            else
              match storeUpsert s c.id e.tx (.dispute amount) with
              | .error err => (some err, c, s)
              | .ok s' =>
                  (none, { c with available := c.available - amount }, s')
        | some (.dispute _) => (some .transactionAlreadyDisputed, c, s)
        | some .withdrawal => (some .cannotDisputeWithdrawal, c, s)
    | .resolve =>
        match storeGet s c.id e.tx with
        | none => (some .transactionNotFound, c, s)
        | some (.dispute amount) =>
            match storeUpsert s c.id e.tx (.deposit amount) with
            | .error err => (some err, c, s)
            | .ok s' =>
                (none, { c with available := c.available + amount }, s')
        | some (.deposit _) => (some .transactionNotDisputed, c, s)
        | some .withdrawal => (some .transactionNotDisputed, c, s)
    | .chargeback =>
        match storeGet s c.id e.tx with
        | none => (some .transactionNotFound, c, s)
        | some (.dispute amount) =>
            (none, { c with total := c.total - amount, locked := true }, s)
        | some (.deposit _) => (some .transactionNotDisputed, c, s)
        | some .withdrawal => (some .transactionNotDisputed, c, s)

/-- The driver loop of src/main.rs restricted to one client: apply each
event in order through `Client.update`; a failing event is logged and
skipped, processing continues from the (unchanged, by atomicity) state. -/
def applyAll (c : Client) (s : MemoryStore) (evs : List Event) :
    Client × MemoryStore :=
  match evs with
  | [] => (c, s)
  | e :: rest =>
      let r := c.update s e
      applyAll r.2.1 r.2.2 rest

/-! ### Helper notions for the held-funds invariant -/

/-- The contribution of one stored `(owner, state)` value to the disputed
total of client `id`: the amount if it is a dispute owned by `id`, else 0. -/
def valDisputed (id : ℕ) : ℕ × TxState → ℚ
  | (owner, .dispute a) => if owner = id then a else 0
  | _ => 0

/-- Sum of the amounts of all stored disputes owned by client `id`. -/
def disputedSum (id : ℕ) (s : MemoryStore) : ℚ :=
  (s.map (fun x => valDisputed id x.2)).sum

/-- `valDisputed` of an optional lookup result, 0 when absent. -/
def optValDisputed (id : ℕ) : Option (ℕ × TxState) → ℚ
  | some w => valDisputed id w
  | none => 0

/-- Every deposit or dispute entry owned by client `id` carries a
non-negative amount. -/
def amountsNonneg (id : ℕ) (s : MemoryStore) : Prop :=
  ∀ x ∈ s, x.2.1 = id →
    ∀ a, (x.2.2 = TxState.deposit a ∨ x.2.2 = TxState.dispute a) → 0 ≤ a

/-- The inductive invariant tying a client's balances to the shared store:
held funds are non-negative; while the account is not frozen, held funds
equal the sum of this client's stored disputes; and all of this client's
stored amounts are non-negative. -/
def Inv (c : Client) (s : MemoryStore) : Prop :=
  0 ≤ c.held ∧ (c.locked = false → c.held = disputedSum c.id s) ∧
    amountsNonneg c.id s

lemma mapGet_mapInsert (s : MemoryStore) (tx tx' : ℕ) (v : ℕ × TxState) :
    mapGet (mapInsert s tx v) tx' = if tx' = tx then some v else mapGet s tx' := by
  induction s with
  | nil => by_cases h : tx' = tx <;> simp [mapGet, mapInsert, h, Ne.symm]
  | cons hd tl ih =>
      obtain ⟨t, w⟩ := hd
      by_cases h : t = tx
      · subst h
        by_cases h' : tx' = t <;> simp [mapGet, mapInsert, h', Ne.symm]
      · by_cases h' : tx' = t <;> simp [mapGet, mapInsert, h, h', ih, Ne.symm]

lemma mem_mapInsert (s : MemoryStore) (tx : ℕ) (v : ℕ × TxState)
    (x : ℕ × ℕ × TxState) (hx : x ∈ mapInsert s tx v) :
    x = (tx, v) ∨ x ∈ s := by
  induction s with
  | nil => simpa [mapInsert] using hx
  | cons hd tl ih =>
      obtain ⟨t, w⟩ := hd
      by_cases h : t = tx
      · subst h
        simp [mapInsert] at hx
        rcases hx with h1 | h2
        · exact Or.inl (by simp [h1])
        · exact Or.inr (by simp [h2])
      · simp [mapInsert, h] at hx
        rcases hx with h1 | h2
        · exact Or.inr (by simp [h1])
        · rcases ih h2 with h3 | h4
          · exact Or.inl h3
          · exact Or.inr (by simp [h4])

lemma mapGet_mem (s : MemoryStore) (tx : ℕ) (v : ℕ × TxState)
    (h : mapGet s tx = some v) : (tx, v) ∈ s := by
  induction s with
  | nil => simp [mapGet] at h
  | cons hd tl ih =>
      obtain ⟨t, w⟩ := hd
      by_cases ht : t = tx
      · subst ht
        simp [mapGet] at h
        simp [h]
      · simp [mapGet, ht] at h
        exact List.mem_cons_of_mem _ (ih h)

lemma disputedSum_nonneg (id : ℕ) (s : MemoryStore)
    (h : amountsNonneg id s) : 0 ≤ disputedSum id s := by
  induction s with
  | nil => simp [disputedSum]
  | cons hd tl ih =>
      obtain ⟨t, owner, st⟩ := hd
      have htl : amountsNonneg id tl := fun x hx => h x (List.mem_cons_of_mem _ hx)
      have hhd : 0 ≤ valDisputed id (owner, st) := by
        cases st with
        | dispute a =>
            by_cases ho : owner = id
            · have := h (t, owner, TxState.dispute a) (by simp)
                (by simpa using ho) a (by simp)
              simpa [valDisputed, ho] using this
            · simp [valDisputed, ho]
        | deposit a => simp [valDisputed]
        | withdrawal => simp [valDisputed]
      have := ih htl
      simp only [disputedSum, List.map_cons, List.sum_cons] at *
      linarith

lemma disputedSum_mapInsert (id : ℕ) (s : MemoryStore) (tx : ℕ)
    (v : ℕ × TxState) :
    disputedSum id (mapInsert s tx v) =
      disputedSum id s + valDisputed id v - optValDisputed id (mapGet s tx) := by
  induction s with
  | nil => simp [disputedSum, mapInsert, mapGet, optValDisputed]
  | cons hd tl ih =>
      obtain ⟨t, w⟩ := hd
      by_cases h : t = tx
      · subst h
        simp [mapInsert, mapGet, disputedSum, optValDisputed]
        ring
      · simp only [mapInsert, if_neg h, mapGet, if_neg h, disputedSum,
          List.map_cons, List.sum_cons] at *
        rw [ih]
        ring

lemma le_disputedSum_of_mapGet (id : ℕ) (s : MemoryStore) (tx : ℕ) (a : ℚ)
    (h : mapGet s tx = some (id, TxState.dispute a)) (hn : amountsNonneg id s) :
    a ≤ disputedSum id s := by
  induction s with
  | nil => simp [mapGet] at h
  | cons hd tl ih =>
      obtain ⟨t, w⟩ := hd
      have htl : amountsNonneg id tl := fun x hx => hn x (List.mem_cons_of_mem _ hx)
      by_cases ht : t = tx
      · subst ht
        simp [mapGet] at h
        subst h
        have hrest : 0 ≤ disputedSum id tl := disputedSum_nonneg id tl htl
        have hval : valDisputed id (id, TxState.dispute a) = a := by
          simp [valDisputed]
        simp only [disputedSum, List.map_cons, List.sum_cons, hval]
        simp only [disputedSum] at hrest
        linarith
      · simp [mapGet, ht] at h
        have := ih h htl
        have hhd : 0 ≤ valDisputed id w := by
          obtain ⟨owner, st⟩ := w
          cases st with
          | dispute b =>
              by_cases ho : owner = id
              · have := hn (t, owner, TxState.dispute b) (by simp)
                  (by simpa using ho) b (by simp)
                simpa [valDisputed, ho] using this
              · simp [valDisputed, ho]
          | deposit b => simp [valDisputed]
          | withdrawal => simp [valDisputed]
        simp only [disputedSum, List.map_cons, List.sum_cons] at *
        linarith

lemma amountsNonneg_mapInsert (id : ℕ) (s : MemoryStore) (tx : ℕ)
    (v : ℕ × TxState) (hs : amountsNonneg id s)
    (hv : v.1 = id → ∀ a, (v.2 = TxState.deposit a ∨ v.2 = TxState.dispute a) → 0 ≤ a) :
    amountsNonneg id (mapInsert s tx v) := by
  intro x hx
  rcases mem_mapInsert s tx v x hx with h | h
  · subst h
    intro ho a ha
    exact hv ho a ha
  · exact hs x h

/-! ### Branch characterizations of `Client.update` -/

lemma update_frozen (c : Client) (s : MemoryStore) (e : Event)
    (hc : c.locked = true) :
    c.update s e = (some .accountFrozen, c, s) := by
  simp [Client.update, hc]

lemma storeGet_eq_none_of_mapGet_none (s : MemoryStore) (cid tx : ℕ)
    (h : mapGet s tx = none) : storeGet s cid tx = none := by
  simp [storeGet, h]

lemma storeGet_eq_none_of_other_owner (s : MemoryStore) (cid tx o : ℕ)
    (st : TxState) (h : mapGet s tx = some (o, st)) (hne : o ≠ cid) :
    storeGet s cid tx = none := by
  simp [storeGet, h, hne]

lemma storeGet_eq_some_of_mapGet (s : MemoryStore) (cid tx : ℕ) (st : TxState)
    (h : mapGet s tx = some (cid, st)) : storeGet s cid tx = some st := by
  simp [storeGet, h]

lemma update_deposit_ok (c : Client) (s : MemoryStore) (ecl tx : ℕ) (a : ℚ)
    (hc : c.locked = false) (hm : mapGet s tx = none) :
    c.update s ⟨ecl, tx, .deposit a⟩ =
      (none, { c with available := c.available + a, total := c.total + a },
        mapInsert s tx (c.id, .deposit a)) := by
  simp [Client.update, hc, storeGet, storeUpsert, hm]

lemma update_deposit_dup (c : Client) (s : MemoryStore) (ecl tx : ℕ) (a : ℚ)
    (hc : c.locked = false) (st : TxState)
    (hm : mapGet s tx = some (c.id, st)) :
    c.update s ⟨ecl, tx, .deposit a⟩ = (some .duplicateTransaction, c, s) := by
  simp [Client.update, hc, storeGet, hm]

lemma update_deposit_conflict (c : Client) (s : MemoryStore) (ecl tx o : ℕ)
    (a : ℚ) (hc : c.locked = false) (st : TxState)
    (hm : mapGet s tx = some (o, st)) (hne : o ≠ c.id) :
    c.update s ⟨ecl, tx, .deposit a⟩ = (some .ownershipConflict, c, s) := by
  simp [Client.update, hc, storeGet, storeUpsert, hm, hne]

lemma update_withdrawal_insufficient (c : Client) (s : MemoryStore)
    (ecl tx : ℕ) (a : ℚ) (hc : c.locked = false) (hlt : c.available < a) :
    c.update s ⟨ecl, tx, .withdrawal a⟩ = (some .insufficientFunds, c, s) := by
  simp [Client.update, hc, hlt]

lemma update_withdrawal_ok (c : Client) (s : MemoryStore) (ecl tx : ℕ) (a : ℚ)
    (hc : c.locked = false) (hge : ¬ c.available < a)
    (hm : mapGet s tx = none) :
    c.update s ⟨ecl, tx, .withdrawal a⟩ =
      (none, { c with available := c.available - a, total := c.total - a },
        mapInsert s tx (c.id, .withdrawal)) := by
  simp [Client.update, hc, hge, storeGet, storeUpsert, hm]

lemma update_withdrawal_dup (c : Client) (s : MemoryStore) (ecl tx : ℕ)
    (a : ℚ) (hc : c.locked = false) (hge : ¬ c.available < a) (st : TxState)
    (hm : mapGet s tx = some (c.id, st)) :
    c.update s ⟨ecl, tx, .withdrawal a⟩ = (some .duplicateTransaction, c, s) := by
  simp [Client.update, hc, hge, storeGet, hm]

lemma update_withdrawal_conflict (c : Client) (s : MemoryStore) (ecl tx o : ℕ)
    (a : ℚ) (hc : c.locked = false) (hge : ¬ c.available < a) (st : TxState)
    (hm : mapGet s tx = some (o, st)) (hne : o ≠ c.id) :
    c.update s ⟨ecl, tx, .withdrawal a⟩ = (some .ownershipConflict, c, s) := by
  simp [Client.update, hc, hge, storeGet, storeUpsert, hm, hne]

lemma update_dispute_notfound (c : Client) (s : MemoryStore) (ecl tx : ℕ)
    (hc : c.locked = false) (hg : storeGet s c.id tx = none) :
    c.update s ⟨ecl, tx, .dispute⟩ = (some .transactionNotFound, c, s) := by
  simp [Client.update, hc, hg]

lemma update_dispute_ok (c : Client) (s : MemoryStore) (ecl tx : ℕ) (a : ℚ)
    (hc : c.locked = false) (hm : mapGet s tx = some (c.id, .deposit a))
    (hle : ¬ a > c.available) :
    c.update s ⟨ecl, tx, .dispute⟩ =
      (none, { c with available := c.available - a },
        mapInsert s tx (c.id, .dispute a)) := by
  simp [Client.update, hc, storeGet, storeUpsert, hm, hle]

lemma update_dispute_guard (c : Client) (s : MemoryStore) (ecl tx : ℕ) (a : ℚ)
    (hc : c.locked = false) (hm : mapGet s tx = some (c.id, .deposit a))
    (hgt : a > c.available) :
    c.update s ⟨ecl, tx, .dispute⟩ = (some .notEnoughFundsToDispute, c, s) := by
  simp [Client.update, hc, storeGet, hm, hgt]

lemma update_dispute_already (c : Client) (s : MemoryStore) (ecl tx : ℕ)
    (a : ℚ) (hc : c.locked = false)
    (hm : mapGet s tx = some (c.id, .dispute a)) :
    c.update s ⟨ecl, tx, .dispute⟩ = (some .transactionAlreadyDisputed, c, s) := by
  simp [Client.update, hc, storeGet, hm]

lemma update_dispute_withdrawal (c : Client) (s : MemoryStore) (ecl tx : ℕ)
    (hc : c.locked = false) (hm : mapGet s tx = some (c.id, .withdrawal)) :
    c.update s ⟨ecl, tx, .dispute⟩ = (some .cannotDisputeWithdrawal, c, s) := by
  simp [Client.update, hc, storeGet, hm]

lemma update_resolve_notfound (c : Client) (s : MemoryStore) (ecl tx : ℕ)
    (hc : c.locked = false) (hg : storeGet s c.id tx = none) :
    c.update s ⟨ecl, tx, .resolve⟩ = (some .transactionNotFound, c, s) := by
  simp [Client.update, hc, hg]

lemma update_resolve_ok (c : Client) (s : MemoryStore) (ecl tx : ℕ) (a : ℚ)
    (hc : c.locked = false) (hm : mapGet s tx = some (c.id, .dispute a)) :
    c.update s ⟨ecl, tx, .resolve⟩ =
      (none, { c with available := c.available + a },
        mapInsert s tx (c.id, .deposit a)) := by
  simp [Client.update, hc, storeGet, storeUpsert, hm]

lemma update_resolve_notdisputed_deposit (c : Client) (s : MemoryStore)
    (ecl tx : ℕ) (a : ℚ) (hc : c.locked = false)
    (hm : mapGet s tx = some (c.id, .deposit a)) :
    c.update s ⟨ecl, tx, .resolve⟩ = (some .transactionNotDisputed, c, s) := by
  simp [Client.update, hc, storeGet, hm]

lemma update_resolve_notdisputed_withdrawal (c : Client) (s : MemoryStore)
    (ecl tx : ℕ) (hc : c.locked = false)
    (hm : mapGet s tx = some (c.id, .withdrawal)) :
    c.update s ⟨ecl, tx, .resolve⟩ = (some .transactionNotDisputed, c, s) := by
  simp [Client.update, hc, storeGet, hm]

lemma update_chargeback_notfound (c : Client) (s : MemoryStore) (ecl tx : ℕ)
    (hc : c.locked = false) (hg : storeGet s c.id tx = none) :
    c.update s ⟨ecl, tx, .chargeback⟩ = (some .transactionNotFound, c, s) := by
  simp [Client.update, hc, hg]

lemma update_chargeback_ok (c : Client) (s : MemoryStore) (ecl tx : ℕ) (a : ℚ)
    (hc : c.locked = false) (hm : mapGet s tx = some (c.id, .dispute a)) :
    c.update s ⟨ecl, tx, .chargeback⟩ =
      (none, { c with total := c.total - a, locked := true }, s) := by
  simp [Client.update, hc, storeGet, hm]

lemma update_chargeback_notdisputed_deposit (c : Client) (s : MemoryStore)
    (ecl tx : ℕ) (a : ℚ) (hc : c.locked = false)
    (hm : mapGet s tx = some (c.id, .deposit a)) :
    c.update s ⟨ecl, tx, .chargeback⟩ = (some .transactionNotDisputed, c, s) := by
  simp [Client.update, hc, storeGet, hm]

lemma update_chargeback_notdisputed_withdrawal (c : Client) (s : MemoryStore)
    (ecl tx : ℕ) (hc : c.locked = false)
    (hm : mapGet s tx = some (c.id, .withdrawal)) :
    c.update s ⟨ecl, tx, .chargeback⟩ = (some .transactionNotDisputed, c, s) := by
  simp [Client.update, hc, storeGet, hm]

/-- Any failing update leaves the client and the store exactly as they
were (used by several claims; claim C3 is stated separately). -/
lemma update_error_eq (c : Client) (s : MemoryStore) (e : Event)
    (err : UpdateError) (c' : Client) (s' : MemoryStore)
    (h : c.update s e = (some err, c', s')) : c' = c ∧ s' = s := by
  cases e with
  | mk ecl tx k =>
      cases k <;> simp only [Client.update] at h <;> (repeat' split at h) <;>
        simp_all [Prod.mk.injEq]

/-- One step of `Client.update` preserves the invariant, provided a deposit
event carries a non-negative amount. -/
lemma Inv_update (c : Client) (s : MemoryStore) (e : Event)
    (hInv : Inv c s) (hdep : ∀ a, e.kind = EventType.deposit a → 0 ≤ a) :
    Inv (c.update s e).2.1 (c.update s e).2.2 := by
  obtain ⟨h0, hsum, hnn⟩ := hInv
  cases e with
  | mk ecl tx k =>
  by_cases hc : c.locked = true
  · rw [update_frozen c s _ hc]
    exact ⟨h0, hsum, hnn⟩
  · have hc' : c.locked = false := by simpa using hc
    cases k with
    | deposit a =>
        have ha : 0 ≤ a := hdep a rfl
        rcases hm : mapGet s tx with _ | ⟨o, st⟩
        · rw [update_deposit_ok c s ecl tx a hc' hm]
          refine ⟨?_, ?_, ?_⟩
          · simp only [Client.held] at h0 ⊢
            linarith
          · intro _
            have hs := hsum hc'
            simp only [Client.held] at hs ⊢
            rw [disputedSum_mapInsert]
            simp only [valDisputed, optValDisputed, hm]
            linarith
          · refine amountsNonneg_mapInsert _ _ _ _ hnn ?_
            intro _ a' hcase
            rcases hcase with hca | hca
            · injection hca with hca'
              exact hca' ▸ ha
            · exact absurd hca (by simp)
        · by_cases ho : o = c.id
          · subst ho
            rw [update_deposit_dup c s ecl tx a hc' st hm]
            exact ⟨h0, hsum, hnn⟩
          · rw [update_deposit_conflict c s ecl tx o a hc' st hm ho]
            exact ⟨h0, hsum, hnn⟩
    | withdrawal a =>
        by_cases hlt : c.available < a
        · rw [update_withdrawal_insufficient c s ecl tx a hc' hlt]
          exact ⟨h0, hsum, hnn⟩
        · rcases hm : mapGet s tx with _ | ⟨o, st⟩
          · rw [update_withdrawal_ok c s ecl tx a hc' hlt hm]
            refine ⟨?_, ?_, ?_⟩
            · simp only [Client.held] at h0 ⊢
              linarith
            · intro _
              have hs := hsum hc'
              simp only [Client.held] at hs ⊢
              rw [disputedSum_mapInsert]
              simp only [valDisputed, optValDisputed, hm]
              linarith
            · refine amountsNonneg_mapInsert _ _ _ _ hnn ?_
              intro _ a' hcase
              rcases hcase with hca | hca <;> exact absurd hca (by simp)
          · by_cases ho : o = c.id
            · subst ho
              rw [update_withdrawal_dup c s ecl tx a hc' hlt st hm]
              exact ⟨h0, hsum, hnn⟩
            · rw [update_withdrawal_conflict c s ecl tx o a hc' hlt st hm ho]
              exact ⟨h0, hsum, hnn⟩
    | dispute =>
        rcases hm : mapGet s tx with _ | ⟨o, st⟩
        · rw [update_dispute_notfound c s ecl tx hc'
            (storeGet_eq_none_of_mapGet_none s c.id tx hm)]
          exact ⟨h0, hsum, hnn⟩
        · by_cases ho : o = c.id
          · subst ho
            cases st with
            | deposit a =>
                have ha : 0 ≤ a :=
                  hnn (tx, c.id, .deposit a) (mapGet_mem s tx _ hm) rfl a
                    (Or.inl rfl)
                by_cases hgt : a > c.available
                · rw [update_dispute_guard c s ecl tx a hc' hm hgt]
                  exact ⟨h0, hsum, hnn⟩
                · rw [update_dispute_ok c s ecl tx a hc' hm hgt]
                  refine ⟨?_, ?_, ?_⟩
                  · simp only [Client.held] at h0 ⊢
                    linarith
                  · intro _
                    have hs := hsum hc'
                    simp only [Client.held] at hs ⊢
                    rw [disputedSum_mapInsert]
                    simp only [valDisputed, optValDisputed, hm, if_pos rfl, if_true]
                    linarith
                  · refine amountsNonneg_mapInsert _ _ _ _ hnn ?_
                    intro _ a' hcase
                    rcases hcase with hca | hca
                    · exact absurd hca (by simp)
                    · injection hca with hca'
                      exact hca' ▸ ha
            | dispute a =>
                rw [update_dispute_already c s ecl tx a hc' hm]
                exact ⟨h0, hsum, hnn⟩
            | withdrawal =>
                rw [update_dispute_withdrawal c s ecl tx hc' hm]
                exact ⟨h0, hsum, hnn⟩
          · rw [update_dispute_notfound c s ecl tx hc'
              (storeGet_eq_none_of_other_owner s c.id tx o st hm ho)]
            exact ⟨h0, hsum, hnn⟩
    | resolve =>
        rcases hm : mapGet s tx with _ | ⟨o, st⟩
        · rw [update_resolve_notfound c s ecl tx hc'
            (storeGet_eq_none_of_mapGet_none s c.id tx hm)]
          exact ⟨h0, hsum, hnn⟩
        · by_cases ho : o = c.id
          · subst ho
            cases st with
            | dispute a =>
                have ha : 0 ≤ a :=
                  hnn (tx, c.id, .dispute a) (mapGet_mem s tx _ hm) rfl a
                    (Or.inr rfl)
                have hle : a ≤ disputedSum c.id s :=
                  le_disputedSum_of_mapGet c.id s tx a hm hnn
                have hs := hsum hc'
                rw [update_resolve_ok c s ecl tx a hc' hm]
                refine ⟨?_, ?_, ?_⟩
                · simp only [Client.held] at h0 hs ⊢
                  linarith
                · intro _
                  simp only [Client.held] at hs ⊢
                  rw [disputedSum_mapInsert]
                  simp only [valDisputed, optValDisputed, hm, if_pos rfl, if_true]
                  linarith
                · refine amountsNonneg_mapInsert _ _ _ _ hnn ?_
                  intro _ a' hcase
                  rcases hcase with hca | hca
                  · injection hca with hca'
                    exact hca' ▸ ha
                  · exact absurd hca (by simp)
            | deposit a =>
                rw [update_resolve_notdisputed_deposit c s ecl tx a hc' hm]
                exact ⟨h0, hsum, hnn⟩
            | withdrawal =>
                rw [update_resolve_notdisputed_withdrawal c s ecl tx hc' hm]
                exact ⟨h0, hsum, hnn⟩
          · rw [update_resolve_notfound c s ecl tx hc'
              (storeGet_eq_none_of_other_owner s c.id tx o st hm ho)]
            exact ⟨h0, hsum, hnn⟩
    | chargeback =>
        rcases hm : mapGet s tx with _ | ⟨o, st⟩
        · rw [update_chargeback_notfound c s ecl tx hc'
            (storeGet_eq_none_of_mapGet_none s c.id tx hm)]
          exact ⟨h0, hsum, hnn⟩
        · by_cases ho : o = c.id
          · subst ho
            cases st with
            | dispute a =>
                have hle : a ≤ disputedSum c.id s :=
                  le_disputedSum_of_mapGet c.id s tx a hm hnn
                have hs := hsum hc'
                rw [update_chargeback_ok c s ecl tx a hc' hm]
                refine ⟨?_, ?_, ?_⟩
                · simp only [Client.held] at h0 hs ⊢
                  linarith
                · intro hl
                  exact absurd hl (by simp)
                · exact hnn
            | deposit a =>
                rw [update_chargeback_notdisputed_deposit c s ecl tx a hc' hm]
                exact ⟨h0, hsum, hnn⟩
            | withdrawal =>
                rw [update_chargeback_notdisputed_withdrawal c s ecl tx hc' hm]
                exact ⟨h0, hsum, hnn⟩
          · rw [update_chargeback_notfound c s ecl tx hc'
              (storeGet_eq_none_of_other_owner s c.id tx o st hm ho)]
            exact ⟨h0, hsum, hnn⟩

/-- The invariant is preserved by any run of events whose deposits all
carry non-negative amounts. -/
lemma Inv_applyAll (c : Client) (s : MemoryStore) (evs : List Event)
    (hInv : Inv c s)
    (hdep : ∀ e ∈ evs, ∀ a, e.kind = EventType.deposit a → 0 ≤ a) :
    Inv (applyAll c s evs).1 (applyAll c s evs).2 := by
  induction evs generalizing c s with
  | nil => simpa [applyAll] using hInv
  | cons e rest ih =>
      simp only [applyAll]
      exact ih _ _ (Inv_update c s e hInv (hdep e (by simp)))
        (fun e' he' => hdep e' (by simp [he']))

/-- The invariant holds for a fresh client and the fresh (empty) store. -/
lemma Inv_new (id : ℕ) : Inv (Client.new id) [] := by
  refine ⟨by simp [Client.new, Client.held], ?_, ?_⟩
  · intro _
    simp [Client.new, Client.held, disputedSum]
  · intro x hx
    simp at hx

lemma mapGet_of_storeGet (s : MemoryStore) (cid tx : ℕ) (st : TxState)
    (h : storeGet s cid tx = some st) : mapGet s tx = some (cid, st) := by
  unfold storeGet at h
  rcases hm : mapGet s tx with _ | ⟨o, st'⟩
  · rw [hm] at h
    simp at h
  · rw [hm] at h
    by_cases ho : o = cid
    · subst ho
      simp at h
      rw [h]
    · simp [ho] at h

/-! ### Claims -/

/-- C1, counterexample: the claim "held = total − available is non-negative
after every update" fails on the code. Depositing a negative amount (which
no validation rejects) and then disputing that deposit drives `held` to −5:
the dispute guard `amount > available` does not fire for `−5 > −5`, and
`available -= −5` raises `available` above `total`. -/
theorem C1_counterexample :
    (applyAll (Client.new 1) []
        [⟨1, 1, .deposit (-5)⟩, ⟨1, 1, .dispute⟩]).1.held < 0 := by
  norm_num [applyAll, Client.update, Client.new, Client.held, storeGet,
    storeUpsert, mapGet, mapInsert]

/-- C1, amended: for every client and every sequence of events applied
through `Client.update` in which every deposit event carries a non-negative
amount, the derived value `held = total − available` is non-negative after
every update (every such sequence, hence every prefix, ends in a state with
`held ≥ 0`, whether individual updates succeed or fail). -/
theorem C1_held_nonneg (id : ℕ) (evs : List Event)
    (hdep : ∀ e ∈ evs, ∀ a, e.kind = EventType.deposit a → 0 ≤ a) :
    0 ≤ (applyAll (Client.new id) [] evs).1.held :=
  (Inv_applyAll (Client.new id) [] evs (Inv_new id) hdep).1

/-- C1, witness: the amended theorem applied to a concrete run (a deposit
of 5 followed by a dispute of it). -/
theorem C1_witness :
    0 ≤ (applyAll (Client.new 7) []
        [⟨7, 1, .deposit 5⟩, ⟨7, 1, .dispute⟩]).1.held :=
  C1_held_nonneg 7 _ (by
    intro e he a hk
    rcases List.mem_cons.mp he with h | h
    · subst h
      injection hk with hk'
      rw [← hk']
      norm_num
    · rcases List.mem_cons.mp h with h' | h'
      · subst h'
        exact absurd hk (by simp)
      · exact absurd h' (by simp))

/-- C2, counterexample: the claim "the only guard on a withdrawal is
`available ≥ a`, and the store is left unchanged" fails on the code. With
`available = 10 ≥ 5` a withdrawal reusing transaction id 1 (created by the
prior deposit) is rejected with "cannot overwrite existing transaction"
(the repository's own test `test_withdrawal_same_tx` checks this), and a
successful withdrawal under a fresh id writes a `Withdrawal` entry into
the store. -/
theorem C2_counterexample :
    Client.update (Client.new 1337) [] ⟨1337, 1, .deposit 10⟩ =
      (none, ⟨1337, 10, 10, false⟩, [(1, 1337, .deposit 10)]) ∧
    ((5 : ℚ) ≤ (⟨1337, 10, 10, false⟩ : Client).available ∧
      (Client.update ⟨1337, 10, 10, false⟩ [(1, 1337, .deposit 10)]
          ⟨1337, 1, .withdrawal 5⟩).1 = some .duplicateTransaction) ∧
    (Client.update ⟨1337, 10, 10, false⟩ [(1, 1337, .deposit 10)]
        ⟨1337, 2, .withdrawal 5⟩).2.2 ≠ [(1, 1337, .deposit 10)] := by
  refine ⟨?_, ⟨by norm_num, ?_⟩, ?_⟩ <;>
    norm_num [Client.update, Client.new, storeGet, storeUpsert, mapGet,
      mapInsert]

/-- C2, amended: for every Withdrawal(a) event applied to an unlocked
client, the update succeeds exactly when `available ≥ a` and no entry for
the withdrawal's transaction id exists in the store (under any owner); on
success `available` and `total` each decrease by `a` and the store gains
an entry recording the id in terminal `Withdrawal` state owned by the
client. -/
theorem C2_withdrawal_spec (c : Client) (s : MemoryStore) (ecl txId : ℕ)
    (a : ℚ) (hc : c.locked = false) :
    ((Client.update c s ⟨ecl, txId, .withdrawal a⟩).1 = none ↔
      a ≤ c.available ∧ mapGet s txId = none) ∧
    (a ≤ c.available → mapGet s txId = none →
      Client.update c s ⟨ecl, txId, .withdrawal a⟩ =
        (none, { c with available := c.available - a, total := c.total - a },
          mapInsert s txId (c.id, .withdrawal))) := by
  constructor
  · constructor
    · intro h
      by_cases hlt : c.available < a
      · rw [update_withdrawal_insufficient c s ecl txId a hc hlt] at h
        simp at h
      · refine ⟨not_lt.mp hlt, ?_⟩
        rcases hm : mapGet s txId with _ | ⟨o, st⟩
        · rfl
        · by_cases ho : o = c.id
          · subst ho
            rw [update_withdrawal_dup c s ecl txId a hc hlt st hm] at h
            simp at h
          · rw [update_withdrawal_conflict c s ecl txId o a hc hlt st hm ho]
              at h
            simp at h
    · rintro ⟨hge, hm⟩
      rw [update_withdrawal_ok c s ecl txId a hc (not_lt.mpr hge) hm]
  · intro hge hm
    exact update_withdrawal_ok c s ecl txId a hc (not_lt.mpr hge) hm

/-- C2, witness: the amended theorem applied to a concrete unlocked client
with sufficient funds and a fresh transaction id. -/
theorem C2_witness :
    Client.update ⟨7, 10, 10, false⟩ [] ⟨7, 4, .withdrawal 3⟩ =
      (none, ⟨7, 10 - 3, 10 - 3, false⟩, [(4, 7, .withdrawal)]) :=
  (C2_withdrawal_spec ⟨7, 10, 10, false⟩ [] 7 4 3 rfl).2 (by norm_num) rfl

/-- C3: every failing call to `Client.update` is atomic — if the update
returns an error then the client's fields and the entire store contents
are exactly as they were before the call. -/
theorem C3_failure_atomic (c : Client) (s : MemoryStore) (e : Event)
    (err : UpdateError) (c' : Client) (s' : MemoryStore)
    (h : Client.update c s e = (some err, c', s')) : c' = c ∧ s' = s :=
  update_error_eq c s e err c' s' h

/-- C3, witness: a concrete failing update (dispute of an absent
transaction) observed to leave the fresh client and empty store intact. -/
theorem C3_witness :
    Client.update (Client.new 3) [] ⟨3, 9, .dispute⟩ =
        (some .transactionNotFound, Client.new 3, []) ∧
      (Client.new 3 = Client.new 3 ∧ ([] : MemoryStore) = []) :=
  ⟨rfl, C3_failure_atomic (Client.new 3) [] ⟨3, 9, .dispute⟩
    .transactionNotFound (Client.new 3) [] rfl⟩

/-- C4: freezing is absorbing. A successful chargeback leaves the client
locked; every update of a locked client fails with `AccountFrozen` before
any check or mutation (client and store returned unchanged); and no
operation ever resets `locked` to false. -/
theorem C4_freezing_absorbing :
    (∀ (c : Client) (s : MemoryStore) (e : Event), c.locked = true →
      Client.update c s e = (some .accountFrozen, c, s)) ∧
    (∀ (c : Client) (s : MemoryStore) (e : Event) (c' : Client)
      (s' : MemoryStore), e.kind = EventType.chargeback →
      Client.update c s e = (none, c', s') → c'.locked = true) ∧
    (∀ (c : Client) (s : MemoryStore) (e : Event) (r : Option UpdateError)
      (c' : Client) (s' : MemoryStore), Client.update c s e = (r, c', s') →
      c.locked = true → c'.locked = true) := by
  refine ⟨fun c s e hc => update_frozen c s e hc, ?_, ?_⟩
  · intro c s e c' s' hk h
    cases e with
    | mk ecl tx k =>
        simp only [Event.kind] at hk
        subst hk
        by_cases hc : c.locked = true
        · rw [update_frozen c s _ hc] at h
          simp at h
        · have hc' : c.locked = false := by simpa using hc
          rcases hm : mapGet s tx with _ | ⟨o, st⟩
          · rw [update_chargeback_notfound c s ecl tx hc'
              (storeGet_eq_none_of_mapGet_none s c.id tx hm)] at h
            simp at h
          · by_cases ho : o = c.id
            · subst ho
              cases st with
              | dispute a =>
                  rw [update_chargeback_ok c s ecl tx a hc' hm] at h
                  injection h with h1 h2
                  injection h2 with h21 h22
                  rw [← h21]
              | deposit a =>
                  rw [update_chargeback_notdisputed_deposit c s ecl tx a hc'
                    hm] at h
                  simp at h
              | withdrawal =>
                  rw [update_chargeback_notdisputed_withdrawal c s ecl tx hc'
                    hm] at h
                  simp at h
            · rw [update_chargeback_notfound c s ecl tx hc'
                (storeGet_eq_none_of_other_owner s c.id tx o st hm ho)] at h
              simp at h
  · intro c s e r c' s' h hc
    rw [update_frozen c s e hc] at h
    have := (Prod.mk.injEq _ _ _ _).mp h
    have hcc : c = c' := congrArg Prod.fst this.2
    rw [← hcc]
    exact hc

/-- C4, witness: the frozen guard applied to a concrete locked client and
a deposit that would otherwise succeed. -/
theorem C4_witness :
    Client.update ⟨2, 5, 5, true⟩ [] ⟨2, 1, .deposit 3⟩ =
      (some .accountFrozen, ⟨2, 5, 5, true⟩, []) :=
  C4_freezing_absorbing.1 ⟨2, 5, 5, true⟩ [] ⟨2, 1, .deposit 3⟩ rfl

/-- C5: isolation. For a transaction id whose stored owner is client `A`,
every dispute, resolve or chargeback issued through an unlocked client
`B ≠ A` fails with `TransactionNotFound` ("transaction does not exist"),
a deposit reusing the id fails with the store's ownership-conflict error,
and every such failure returns `B`'s record and the whole store (hence the
stored entry's owner and state, and `A`'s balances, which the call never
touches) unchanged. -/
theorem C5_isolation (c : Client) (s : MemoryStore) (txId A : ℕ)
    (st : TxState) (hA : mapGet s txId = some (A, st)) (hne : c.id ≠ A)
    (hl : c.locked = false) :
    (∀ ecl, Client.update c s ⟨ecl, txId, .dispute⟩ =
      (some .transactionNotFound, c, s)) ∧
    (∀ ecl, Client.update c s ⟨ecl, txId, .resolve⟩ =
      (some .transactionNotFound, c, s)) ∧
    (∀ ecl, Client.update c s ⟨ecl, txId, .chargeback⟩ =
      (some .transactionNotFound, c, s)) ∧
    (∀ ecl (a : ℚ), Client.update c s ⟨ecl, txId, .deposit a⟩ =
      (some .ownershipConflict, c, s)) := by
  have hg : storeGet s c.id txId = none :=
    storeGet_eq_none_of_other_owner s c.id txId A st hA hne.symm
  exact ⟨fun ecl => update_dispute_notfound c s ecl txId hl hg,
    fun ecl => update_resolve_notfound c s ecl txId hl hg,
    fun ecl => update_chargeback_notfound c s ecl txId hl hg,
    fun ecl a => update_deposit_conflict c s ecl txId A a hl st hA hne.symm⟩

/-- C5, witness: the isolation theorem applied to a concrete store holding
transaction 1 for client 5 and an unlocked client 7 disputing it. -/
theorem C5_witness :
    Client.update ⟨7, 0, 0, false⟩ [(1, 5, .deposit 10)] ⟨7, 1, .dispute⟩ =
      (some .transactionNotFound, ⟨7, 0, 0, false⟩, [(1, 5, .deposit 10)]) :=
  (C5_isolation ⟨7, 0, 0, false⟩ [(1, 5, .deposit 10)] 1 5 (.deposit 10) rfl
    (by decide) rfl).1 7

/-- C6: a chargeback on an unlocked client whose transaction id is stored
for that client in state `Dispute(amount)` succeeds, decreases `total` by
the amount, leaves `available` unchanged, sets `locked`, and performs no
store write (the entry stays `Dispute(amount)`). -/
theorem C6_chargeback (c : Client) (s : MemoryStore) (ecl txId : ℕ) (a : ℚ)
    (hl : c.locked = false) (hs : storeGet s c.id txId = some (.dispute a)) :
    Client.update c s ⟨ecl, txId, .chargeback⟩ =
      (none, { c with total := c.total - a, locked := true }, s) :=
  update_chargeback_ok c s ecl txId a hl (mapGet_of_storeGet s c.id txId _ hs)

/-- C6, witness: the chargeback theorem applied to a concrete client with
a disputed deposit of 5. -/
theorem C6_witness :
    Client.update ⟨7, 1, 6, false⟩ [(1, 7, .dispute 5)] ⟨7, 1, .chargeback⟩ =
      (none, ⟨7, 1, 6 - 5, true⟩, [(1, 7, .dispute 5)]) :=
  C6_chargeback ⟨7, 1, 6, false⟩ [(1, 7, .dispute 5)] 7 1 5 rfl rfl

/-- C7: `storeGet` returns the stored state exactly when an entry for the
transaction id exists and its recorded owner equals the asking client id;
it returns `none` both when no entry exists and when the entry is owned by
a different client. -/
theorem C7_get_spec (s : MemoryStore) (cid txId : ℕ) :
    (∀ st, storeGet s cid txId = some st ↔ mapGet s txId = some (cid, st)) ∧
    (storeGet s cid txId = none ↔
      (mapGet s txId = none ∨
        ∃ o st, mapGet s txId = some (o, st) ∧ o ≠ cid)) := by
  constructor
  · intro st
    constructor
    · exact fun h => mapGet_of_storeGet s cid txId st h
    · exact fun h => storeGet_eq_some_of_mapGet s cid txId st h
  · constructor
    · intro h
      rcases hm : mapGet s txId with _ | ⟨o, st⟩
      · exact Or.inl rfl
      · refine Or.inr ⟨o, st, rfl, ?_⟩
        intro ho
        subst ho
        rw [storeGet_eq_some_of_mapGet s o txId st hm] at h
        simp at h
    · intro h
      rcases h with h | ⟨o, st, hm, ho⟩
      · exact storeGet_eq_none_of_mapGet_none s cid txId h
      · exact storeGet_eq_none_of_other_owner s cid txId o st hm ho

/-- C7, witness: the get contract applied to a concrete one-entry store,
with the owning client and with a foreign client. -/
theorem C7_witness :
    storeGet [(1, 5, TxState.deposit 10)] 5 1 = some (TxState.deposit 10) ∧
    storeGet [(1, 5, TxState.deposit 10)] 7 1 = none :=
  ⟨((C7_get_spec [(1, 5, .deposit 10)] 5 1).1 _).mpr rfl,
    (C7_get_spec [(1, 5, .deposit 10)] 7 1).2.mpr
      (Or.inr ⟨5, .deposit 10, rfl, by decide⟩)⟩

/-- C8: `tryFrom` (the embedding of `Event::try_from`) succeeds exactly
when the record's type is one of the five literals (case-sensitive) and,
for deposit and withdrawal, an amount is present; it fails with
`unknownEventType` on any other type string and with `missingAmount` on an
amountless deposit or withdrawal; and for dispute, resolve and chargeback
the result ignores whatever amount the record carries. -/
theorem C8_validate_spec (r : Record) :
    ((∃ ev, tryFrom r = .ok ev) ↔
      (((r.type = "deposit" ∨ r.type = "withdrawal") ∧ r.amount ≠ none) ∨
        r.type = "dispute" ∨ r.type = "resolve" ∨ r.type = "chargeback")) ∧
    (r.type ≠ "deposit" → r.type ≠ "withdrawal" → r.type ≠ "dispute" →
      r.type ≠ "resolve" → r.type ≠ "chargeback" →
      tryFrom r = .error .unknownEventType) ∧
    ((r.type = "deposit" ∨ r.type = "withdrawal") → r.amount = none →
      tryFrom r = .error .missingAmount) ∧
    (r.type = "dispute" → tryFrom r = .ok ⟨r.client, r.tx, .dispute⟩) ∧
    (r.type = "resolve" → tryFrom r = .ok ⟨r.client, r.tx, .resolve⟩) ∧
    (r.type = "chargeback" → tryFrom r = .ok ⟨r.client, r.tx, .chargeback⟩) := by
  rcases ha : r.amount with _ | a <;>
    · simp only [tryFrom, ha]
      split_ifs with h1 h2 h3 h4 h5 <;> simp_all

/-- C8, witness: the validator contract applied to a concrete dispute
record carrying a (discarded) amount. -/
theorem C8_witness :
    tryFrom ⟨"dispute", 9, 4, some 3⟩ = .ok ⟨9, 4, .dispute⟩ :=
  (C8_validate_spec ⟨"dispute", 9, 4, some 3⟩).2.2.2.1 rfl

/-- C9, counterexample: the claim says a withdrawal of a negative amount
succeeds on any unlocked client "since available ≥ amount holds". That
parenthetical is false: available can itself be negative. Starting fresh, a
deposit of −10 succeeds (no sign check) and leaves available = −10; a
withdrawal of −5 then fails with `InsufficientFunds` because
`available (−10) < amount (−5)`, on an unlocked client. -/
theorem C9_counterexample :
    Client.update (Client.new 1) [] ⟨1, 1, .deposit (-10)⟩ =
      (none, ⟨1, -10, -10, false⟩, [(1, 1, .deposit (-10))]) ∧
    (⟨1, -10, -10, false⟩ : Client).locked = false ∧ (-5 : ℚ) < 0 ∧
    (Client.update ⟨1, -10, -10, false⟩ [(1, 1, .deposit (-10))]
        ⟨1, 2, .withdrawal (-5)⟩).1 = some .insufficientFunds := by
  refine ⟨?_, rfl, by norm_num, ?_⟩ <;>
    norm_num [Client.update, Client.new, storeGet, storeUpsert, mapGet,
      mapInsert]

/-- C9, amended: validation imposes no sign or range check (a record with
a negative amount validates); a deposit of a negative amount succeeds on a
fresh client with a fresh store and decreases available and total; and a
withdrawal of a negative amount succeeds on any unlocked client whose
available funds are at least that (negative) amount and whose transaction
id is not already stored, increasing available and total. -/
theorem C9_no_sign_check :
    (tryFrom ⟨"deposit", 1, 1, some (-5)⟩ = .ok ⟨1, 1, .deposit (-5)⟩) ∧
    (∀ (id txId ecl : ℕ) (a : ℚ), a < 0 →
      Client.update (Client.new id) [] ⟨ecl, txId, .deposit a⟩ =
          (none, ⟨id, a, a, false⟩, [(txId, id, .deposit a)]) ∧
        (⟨id, a, a, false⟩ : Client).available < (Client.new id).available) ∧
    (∀ (c : Client) (s : MemoryStore) (ecl txId : ℕ) (a : ℚ), a < 0 →
      c.locked = false → a ≤ c.available → mapGet s txId = none →
      Client.update c s ⟨ecl, txId, .withdrawal a⟩ =
          (none,
            { c with available := c.available - a, total := c.total - a },
            mapInsert s txId (c.id, .withdrawal)) ∧
        c.available < c.available - a) := by
  refine ⟨rfl, ?_, ?_⟩
  · intro id txId ecl a ha
    constructor
    · rw [update_deposit_ok (Client.new id) [] ecl txId a rfl rfl]
      simp [Client.new, mapInsert]
    · simp only [Client.new]
      linarith
  · intro c s ecl txId a ha hl hge hm
    refine ⟨update_withdrawal_ok c s ecl txId a hl (not_lt.mpr hge) hm, ?_⟩
    linarith

/-- C9, witness: the amended theorem applied to a concrete unlocked client
with positive available funds withdrawing −2, which raises both balances
by 2. -/
theorem C9_witness :
    Client.update ⟨3, 4, 4, false⟩ [] ⟨3, 9, .withdrawal (-2)⟩ =
        (none, ⟨3, 4 - (-2), 4 - (-2), false⟩, [(9, 3, .withdrawal)]) ∧
      (4 : ℚ) < 4 - (-2) :=
  C9_no_sign_check.2.2 ⟨3, 4, 4, false⟩ [] 3 9 (-2) (by norm_num) rfl
    (by norm_num) rfl

/-- C10: a successful withdrawal records its transaction id in the store
in terminal `Withdrawal` state under the client; thereafter, on an
unlocked client holding such an entry, a dispute of the id fails with
"cannot dispute a withdrawal", a resolve or chargeback fails with
"transaction is not disputed", and a deposit or withdrawal reusing the id
fails — every such failure leaving the client's balances and the store
unchanged. -/
theorem C10_withdrawal_terminal :
    (∀ (c : Client) (s : MemoryStore) (e : Event) (a : ℚ) (c' : Client)
      (s' : MemoryStore), e.kind = EventType.withdrawal a →
      Client.update c s e = (none, c', s') →
      mapGet s' e.tx = some (c.id, .withdrawal)) ∧
    (∀ (c : Client) (s : MemoryStore) (ecl txId : ℕ),
      c.locked = false → mapGet s txId = some (c.id, .withdrawal) →
      Client.update c s ⟨ecl, txId, .dispute⟩ =
          (some .cannotDisputeWithdrawal, c, s) ∧
        Client.update c s ⟨ecl, txId, .resolve⟩ =
          (some .transactionNotDisputed, c, s) ∧
        Client.update c s ⟨ecl, txId, .chargeback⟩ =
          (some .transactionNotDisputed, c, s) ∧
        (∀ a : ℚ, Client.update c s ⟨ecl, txId, .deposit a⟩ =
          (some .duplicateTransaction, c, s)) ∧
        (∀ a : ℚ, ((Client.update c s ⟨ecl, txId, .withdrawal a⟩).1 =
              some .insufficientFunds ∨
            (Client.update c s ⟨ecl, txId, .withdrawal a⟩).1 =
              some .duplicateTransaction) ∧
          (Client.update c s ⟨ecl, txId, .withdrawal a⟩).2 = (c, s))) := by
  constructor
  · intro c s e a c' s' hk h
    cases e with
    | mk ecl tx k =>
        simp only [Event.kind] at hk
        subst hk
        by_cases hc : c.locked = true
        · rw [update_frozen c s _ hc] at h
          simp at h
        · have hc' : c.locked = false := by simpa using hc
          by_cases hlt : c.available < a
          · rw [update_withdrawal_insufficient c s ecl tx a hc' hlt] at h
            simp at h
          · rcases hm : mapGet s tx with _ | ⟨o, st⟩
            · rw [update_withdrawal_ok c s ecl tx a hc' hlt hm] at h
              injection h with h1 h2
              injection h2 with h21 h22
              rw [← h22, mapGet_mapInsert]
              simp
            · by_cases ho : o = c.id
              · subst ho
                rw [update_withdrawal_dup c s ecl tx a hc' hlt st hm] at h
                simp at h
              · rw [update_withdrawal_conflict c s ecl tx o a hc' hlt st hm
                  ho] at h
                simp at h
  · intro c s ecl txId hl hm
    refine ⟨update_dispute_withdrawal c s ecl txId hl hm,
      update_resolve_notdisputed_withdrawal c s ecl txId hl hm,
      update_chargeback_notdisputed_withdrawal c s ecl txId hl hm,
      fun a => update_deposit_dup c s ecl txId a hl _ hm, ?_⟩
    intro a
    by_cases hlt : c.available < a
    · rw [update_withdrawal_insufficient c s ecl txId a hl hlt]
      exact ⟨Or.inl rfl, rfl⟩
    · rw [update_withdrawal_dup c s ecl txId a hl hlt _ hm]
      exact ⟨Or.inr rfl, rfl⟩

/-- C10, witness: the theorem applied to a concrete client holding a
recorded withdrawal under transaction id 2, whose dispute is rejected. -/
theorem C10_witness :
    Client.update ⟨7, 3, 3, false⟩ [(2, 7, .withdrawal)] ⟨7, 2, .dispute⟩ =
      (some .cannotDisputeWithdrawal, ⟨7, 3, 3, false⟩,
        [(2, 7, .withdrawal)]) :=
  (C10_withdrawal_terminal.2 ⟨7, 3, 3, false⟩ [(2, 7, .withdrawal)] 7 2 rfl
    rfl).1

end Payments
